import Mathlib

/-!
Verification development for the TemporalETL repository.

This file gives a shallow embedding in Lean 4 of the parts of the code that
the specification talks about:

* the Event data model and its construction-time validation and derived
  fields (`src/worker/models/event.py`, `src/worker/models/date_utils.py`);
* the launchpad transform step (`src/worker/sources/launchpad/transform.py`)
  and the streaming transform activity
  (`src/models/etl/streaming_etl_flow.py`, `transform_data_batch`);
* the two batch-insert variants of the persistence layer
  (`src/etl/db/db.py` + `src/db/sql.py`, and
  `src/worker/external/wpe_db/client.py` + `src/worker/external/wpe_db/sql.py`),
  modelled at the SQL semantics level over an explicit list of stored rows;
* the retry loops of `src/db/db.py` (`insert_events_batch`, `get_connection`);
* the chunking and summary aggregation of `src/worker/models/etl/flow.py`;
* the semaphore discipline bounding concurrent chunk processing, as a
  transition system.

Python dicts that in the source hold JSON-serializable values are modelled as
string-valued association lists (insertion-ordered, unique keys maintained by
`insertReplace`).
-/

namespace TemporalETL

/-- Decidable equality of fallible results, used to evaluate the models on
concrete inputs. -/
instance {ε α : Type} [DecidableEq ε] [DecidableEq α] : DecidableEq (Except ε α) :=
  fun x y =>
    match x, y with
    | .ok a, .ok b =>
      if h : a = b then .isTrue (by rw [h]) else .isFalse (by intro hc; cases hc; exact h rfl)
    | .error a, .error b =>
      if h : a = b then .isTrue (by rw [h]) else .isFalse (by intro hc; cases hc; exact h rfl)
    | .ok _, .error _ => .isFalse (by intro hc; cases hc)
    | .error _, .ok _ => .isFalse (by intro hc; cases hc)

/-- Association-list lookup (models Python `dict.get` / `dict[...]`). -/
def lookupA {α : Type} (l : List (String × α)) (k : String) : Option α :=
  match l with
  | [] => none
  | (k1, v) :: t => if k1 = k then some v else lookupA t k

/-- Association-list insert-or-replace (models Python `d[k] = v`:
keeps insertion order, replaces the value when the key exists). -/
def insertReplace {α : Type} (l : List (String × α)) (k : String) (v : α) :
    List (String × α) :=
  match l with
  | [] => [(k, v)]
  | (k1, v1) :: t => if k1 = k then (k, v) :: t else (k1, v1) :: insertReplace t k v

/-- Values of the Python key-value maps are modelled as strings; a map is an
association list. -/
abbrev Props := List (String × String)

/-! ### Calendar model

`datetime.date` arithmetic is modelled through the civil-calendar/day-number
conversion (proleptic Gregorian calendar, epoch 1970-01-01 = day 0), and
`datetime.weekday()` through the day number (Monday = 0). -/

/-- A calendar date as carried by a Python `datetime` (time of day is not
needed by any modelled code path). -/
structure CivilDate where
  year : Int
  month : Int
  day : Int
deriving Repr, DecidableEq

/-- Leap year test of the Gregorian calendar. -/
def isLeap (y : Int) : Bool := y % 4 = 0 && (y % 100 ≠ 0 || y % 400 = 0)

/-- Number of days in a month of the Gregorian calendar. -/
def daysInMonth (y : Int) (m : Int) : Int :=
  if m = 2 then (if isLeap y then 29 else 28)
  else if m = 4 || m = 6 || m = 9 || m = 11 then 30
  else 31

/-- Day number of a civil date, with 1970-01-01 = day 0 (the standard
era-based conversion; all divisions are by positive constants, so `Int`
division here is floor division). -/
def daysFromCivil (d : CivilDate) : Int :=
  let y := if d.month ≤ 2 then d.year - 1 else d.year
  let era := y / 400
  let yoe := y - era * 400
  let mp := if d.month ≤ 2 then d.month + 9 else d.month - 3
  let doy := (153 * mp + 2) / 5 + d.day - 1
  let doe := yoe * 365 + yoe / 4 - yoe / 100 + doy
  era * 146097 + doe - 719468

/-- Civil date of a day number (inverse of `daysFromCivil`). -/
def civilFromDays (z0 : Int) : CivilDate :=
  let z := z0 + 719468
  let era := z / 146097
  let doe := z - era * 146097
  let yoe := (doe - doe / 1460 + doe / 36524 - doe / 146096) / 365
  let y := yoe + era * 400
  let doy := doe - (365 * yoe + yoe / 4 - yoe / 100)
  let mp := (5 * doy + 2) / 153
  let d := doy - (153 * mp + 2) / 5 + 1
  let m := if mp < 10 then mp + 3 else mp - 9
  { year := if m ≤ 2 then y + 1 else y, month := m, day := d }

/-- Python `datetime.weekday()`: Monday = 0 … Sunday = 6
(1970-01-01 was a Thursday, hence the offset 3). -/
def pyWeekday (d : CivilDate) : Int := (daysFromCivil d + 3) % 7

/-- Decimal rendering of a nonnegative integer, zero-padded to `w` digits
(models `strftime` field padding). -/
def padNum (w : Nat) (n : Int) : String :=
  let s := toString n.toNat
  String.mk (List.replicate (w - s.length) '0') ++ s

/-- Rendering of a date as `YYYY-MM-DD` (models `strftime("%Y-%m-%d")`). -/
def formatYMD (d : CivilDate) : String :=
  padNum 4 d.year ++ "-" ++ padNum 2 d.month ++ "-" ++ padNum 2 d.day

/-- Embeds `date_utils.get_week_start_date`: subtract `weekday()` days from
the date and render the result in ISO format. -/
def get_week_start_date (d : CivilDate) : String :=
  formatYMD (civilFromDays (daysFromCivil d - pyWeekday d))

/-- Digit-string to number (`none` when empty or not all digits). -/
def digitsToNat (cs : List Char) : Option Nat :=
  if cs ≠ [] ∧ cs.all Char.isDigit then
    some (cs.foldl (fun a c => 10 * a + (c.toNat - 48)) 0)
  else none

/-- Whether the remainder after the date part of an ISO-8601 string is
acceptable: empty, or a time part introduced by `T` or a space. The model
validates the calendar-date component, which is all the embedded code reads. -/
def isoRestOk (cs : List Char) : Bool :=
  match cs with
  | [] => true
  | c :: _ => c = 'T' || c = ' '

/-- Embeds the date component of `datetime.fromisoformat`: parses
`YYYY-MM-DD...`, checking that the date is a valid calendar date. -/
def parseIsoDate (s : String) : Option CivilDate :=
  match s.data with
  | y1 :: y2 :: y3 :: y4 :: s1 :: m1 :: m2 :: s2 :: d1 :: d2 :: rest =>
    if s1 = '-' ∧ s2 = '-' ∧ isoRestOk rest then
      match digitsToNat [y1, y2, y3, y4], digitsToNat [m1, m2], digitsToNat [d1, d2] with
      | some y, some m, some d =>
        if 1 ≤ m ∧ m ≤ 12 ∧ 1 ≤ d ∧ (d : Int) ≤ daysInMonth y m then
          some { year := y, month := m, day := d }
        else none
      | _, _, _ => none
    else none
  | _ => none

/-- Embeds `date_utils.change_timezone` for the case the pipeline exercises
(target timezone `"UTC"`): `fromisoformat` then `astimezone` then
`isoformat`, which re-renders the instant with a `+00:00` offset. Conversion
into other `pytz` zones is outside this model and is mapped to `none`. -/
def changeTimezone (dateStr : String) (fromTz toTz : String) : Option String :=
  if fromTz = "UTC" ∧ toTz = "UTC" then
    match parseIsoDate dateStr with
    | some _ =>
      let core :=
        match dateStr.data.getLast? with
        | some 'Z' => String.mk dateStr.data.dropLast
        | _ => dateStr
      some (core ++ "+00:00")
    | none => none
  else none

/-! ### Event model (`src/worker/models/event.py`) -/

/-- The constructor arguments of the `Event` dataclass, before
`__post_init__` runs (optional fields may be `None`). -/
structure EventFields where
  id : Option Int
  source_kind_id : String
  parent_item_id : Option String
  event_id : String
  event_type : String
  relation_type : String
  employee_id : String
  event_time_utc : String
  week : Option String
  timezone : Option String
  event_time : Option String
  event_properties : Option Props
  relation_properties : Option Props
  metrics : Option Props
  version : String
  specific_version : String
deriving Repr, DecidableEq

/-- A validated `Event` after `__post_init__`: `week`, `timezone` and
`event_time` are populated, the three maps are non-null. -/
structure Event where
  id : Option Int
  source_kind_id : String
  parent_item_id : Option String
  event_id : String
  event_type : String
  relation_type : String
  employee_id : String
  event_time_utc : String
  week : String
  timezone : String
  event_time : String
  event_properties : Props
  relation_properties : Props
  metrics : Props
  version : String
  specific_version : String
deriving Repr, DecidableEq

/-- Python falsiness of an optional string: `None` or `""`. -/
def isBlank (o : Option String) : Bool := o.getD "" = ""

/-- Embeds `Event.__post_init__`: the required-field checks in source order,
then derivation of `week`, `timezone` and `event_time`, then defaulting of
the three maps. A raised `ValueError` is an `Except.error`. -/
def mkEvent (f : EventFields) : Except String Event :=
  if f.source_kind_id = "" then .error "Source kind ID cannot be empty"
  else if f.event_id = "" then .error "Event ID cannot be empty"
  else if f.event_type = "" then .error "Event type cannot be empty"
  else if f.relation_type = "" then .error "Relation type cannot be empty"
  else if f.employee_id = "" then .error "Employee ID cannot be empty"
  else if f.event_time_utc = "" then .error "Event time cannot be empty"
  else
    let week? : Except String String :=
      if isBlank f.week then
        match parseIsoDate f.event_time_utc with
        | some d => .ok (get_week_start_date d)
        | none => .error "Invalid isoformat string"
      else .ok (f.week.getD "")
    let tz := if isBlank f.timezone then "UTC" else f.timezone.getD ""
    let time? : Except String String :=
      if isBlank f.event_time then
        match changeTimezone f.event_time_utc "UTC" tz with
        | some t => .ok t
        | none => .error "UnknownTimeZoneError"
      else .ok (f.event_time.getD "")
    match week? with
    | .error e => .error e
    | .ok w =>
      match time? with
      | .error e => .error e
      | .ok t =>
        .ok { id := f.id
              source_kind_id := f.source_kind_id
              parent_item_id := f.parent_item_id
              event_id := f.event_id
              event_type := f.event_type
              relation_type := f.relation_type
              employee_id := f.employee_id
              event_time_utc := f.event_time_utc
              week := w
              timezone := tz
              event_time := t
              event_properties := f.event_properties.getD []
              relation_properties := f.relation_properties.getD []
              metrics := f.metrics.getD []
              version := f.version
              specific_version := f.specific_version }

/-! ### Raw records and the transform step
(`src/worker/sources/launchpad/transform.py`,
`src/models/etl/streaming_etl_flow.py`) -/

/-- A loosely-typed source record (one dictionary of the extraction result).
An outer `none` models a missing key (`record[...]` raises `KeyError`,
`record.get(...)` yields the default); for `parent_item_id` the inner
`Option` models an explicit `None` value (the column is nullable). -/
structure RawRecord where
  parent_item_id : Option (Option String)
  event_id : Option String
  event_type : Option String
  relation_type : Option String
  employee_id : Option String
  event_time_utc : Option String
  time_zone : Option String
  event_properties : Option Props
  relation_properties : Option Props
  metrics : Option Props
deriving Repr, DecidableEq

/-- Version constant `LaunchpadQuery.version()` (major component of
`_version = "2.0.0"`). -/
def launchpadVersion : String := "2"

/-- Version constant `LaunchpadQuery.specific_version()`. -/
def launchpadSpecificVersion : String := "2.0.0"

/-- Embeds the employee-id resolution of `transform_data`:
`employee_hrc_map.get(launchpad_id, None)` and, when the result is falsy,
anonymization through `sha256` (the hash function is a parameter of the
model, as `hashlib` is an external library). -/
def resolveEmployee (hrcMap : List (String × String)) (hashFn : String → String)
    (lid : String) : String :=
  match lookupA hrcMap lid with
  | some i => if i = "" then hashFn lid else i
  | none => hashFn lid

/-- Embeds the assignee resolution of the `question_created` branch of
`transform_data`: `event_properties.get("assignee", "")` resolved through
the same map-or-hash rule. -/
def resolveAssignee (hrcMap : List (String × String)) (hashFn : String → String)
    (props : Props) : String :=
  resolveEmployee hrcMap hashFn ((lookupA props "assignee").getD "")

/-- Embeds the `Event(...)` construction inside the `try` block of
`transform_data`: the state of the event right after `__post_init__`
completes. `none` models any exception inside the `try` block (a missing
required key or a failed validation), which the loop logs and skips. -/
def constructedEvent (hrcMap : List (String × String)) (hashFn : String → String)
    (r : RawRecord) : Option Event :=
  match r.parent_item_id, r.event_id, r.event_type, r.relation_type, r.event_time_utc with
  | some p, some eid, some et, some rt, some utc =>
    (mkEvent
      { id := none
        source_kind_id := "launchpad"
        parent_item_id := p
        event_id := eid
        event_type := et
        relation_type := rt
        employee_id := resolveEmployee hrcMap hashFn (r.employee_id.getD "")
        event_time_utc := utc
        week := none
        timezone := some (r.time_zone.getD "UTC")
        event_time := none
        event_properties := some (r.event_properties.getD [])
        relation_properties := some (r.relation_properties.getD [])
        metrics := some (r.metrics.getD [])
        version := launchpadVersion
        specific_version := launchpadSpecificVersion }).toOption
  | _, _, _, _, _ => none

/-- The event appended for one record by `transform_data`: the constructed
event, further updated in place on the `question_created` branch
(`e.relation_properties["assignee"] = ...`). -/
def processRecord (hrcMap : List (String × String)) (hashFn : String → String)
    (r : RawRecord) : Option Event :=
  (constructedEvent hrcMap hashFn r).map fun e =>
    if e.event_type = "question_created" then
      let a := resolveAssignee hrcMap hashFn e.event_properties
      { e with relation_properties := insertReplace e.relation_properties "assignee" a }
    else e

/-- Embeds `transform_data` (launchpad): for each record, the
`if not launchpad_id: raise ValueError(...)` guard sits OUTSIDE the
`try`/`except`, so a blank employee id aborts the whole chunk; every other
per-record failure is caught and the record skipped. -/
def transformData (hrcMap : List (String × String)) (hashFn : String → String) :
    List RawRecord → Except String (List Event)
  | [] => .ok []
  | r :: rs =>
    if isBlank r.employee_id then
      .error "Employee ID is required for transformation"
    else
      match processRecord hrcMap hashFn r with
      | some e => (transformData hrcMap hashFn rs).map (fun l => e :: l)
      | none => transformData hrcMap hashFn rs

/-- Embeds the `Event(...)` construction of `transform_data_batch` in the
streaming flow. The `Event` revision that flow imports is not present under
`src/`; modelled from the spec: construction validates the required fields
and derives `week`/`timezone`/`event_time` exactly as the worker `Event`
does (the flow passes no version fields, modelled as empty strings). -/
def buildStreamingEvent (skid etype : String) (r : RawRecord) : Option Event :=
  match r.parent_item_id, r.event_id, r.relation_type, r.employee_id, r.event_time_utc with
  | some p, some eid, some rt, some emp, some utc =>
    (mkEvent
      { id := none
        source_kind_id := skid
        parent_item_id := p
        event_id := eid
        event_type := etype
        relation_type := rt
        employee_id := emp
        event_time_utc := utc
        week := none
        timezone := some (r.time_zone.getD "UTC")
        event_time := none
        event_properties := some (r.event_properties.getD [])
        relation_properties := some (r.relation_properties.getD [])
        metrics := some (r.metrics.getD [])
        version := ""
        specific_version := "" }).toOption
  | _, _, _, _, _ => none

/-- Embeds `transform_data_batch` of the streaming flow: every record is
processed inside a `try`/`except` that logs and skips the record on any
exception, so the loop itself never raises. -/
def transformDataBatch (skid etype : String) : List RawRecord → List Event
  | [] => []
  | r :: rs =>
    match buildStreamingEvent skid etype r with
    | some e => e :: transformDataBatch skid etype rs
    | none => transformDataBatch skid etype rs

/-! ### Persistence layer, variant 1
(`src/etl/db/db.py` with the queries of `src/db/sql.py`), modelled at the
semantics of the issued SQL over an explicit list of stored rows. -/

/-- A stored row of the events table (`get_create_events_table_query`):
`event_id` is `UNIQUE`; the three JSONB columns are nullable (`none` = SQL
`NULL`). -/
structure DBRow where
  source_kind_id : String
  parent_item_id : Option String
  event_id : String
  event_type : String
  relation_type : String
  employee_id : String
  event_time_utc : String
  week : String
  timezone : Option String
  event_time : Option String
  event_properties : Option Props
  relation_properties : Option Props
  metrics : Option Props
deriving Repr, DecidableEq

/-- The VALUES tuple built for one event by `insert_events_batch`:
each JSON column is `Json(map)` when the map is truthy and SQL `NULL` when
the map is empty (`Json(e.x) if e.x else None`). -/
def rowOfEvent (e : Event) : DBRow :=
  { source_kind_id := e.source_kind_id
    parent_item_id := e.parent_item_id
    event_id := e.event_id
    event_type := e.event_type
    relation_type := e.relation_type
    employee_id := e.employee_id
    event_time_utc := e.event_time_utc
    week := e.week
    timezone := some e.timezone
    event_time := some e.event_time
    event_properties := if e.event_properties = [] then none else some e.event_properties
    relation_properties := if e.relation_properties = [] then none else some e.relation_properties
    metrics := if e.metrics = [] then none else some e.metrics }

/-- Event ids present in the store (the `UNIQUE (event_id)` key). -/
def storeIds (store : List DBRow) : List String := store.map (·.event_id)

/-- Semantics of `INSERT INTO … VALUES %s ON CONFLICT (event_id) DO NOTHING`:
rows are inserted in order, a row whose `event_id` already exists is
skipped; the returned count is the number of rows actually inserted
(`cursor.rowcount`). -/
def insertEventsNew (store : List DBRow) : List Event → List DBRow × Nat
  | [] => (store, 0)
  | e :: es =>
    if (storeIds store).contains e.event_id then insertEventsNew store es
    else
      let t := insertEventsNew (store ++ [rowOfEvent e]) es
      (t.1, t.2 + 1)

/-- The `parent_updates` dict comprehension of `insert_events_batch`:
one entry per truthy `parent_item_id`, the later occurrence overwriting the
earlier, so each parent maps to the `event_properties` of its last event in
the batch. -/
def parentUpdates (events : List Event) : List (String × Props) :=
  events.foldl
    (fun acc e =>
      match e.parent_item_id with
      | some p => if p = "" then acc else insertReplace acc p e.event_properties
      | none => acc)
    []

/-- Effect of `get_update_events_parents_query` on one stored row: when the
row's `parent_item_id` equals a parent of the update list, its
`event_properties` column is set to that parent's value (`Json(props)` is
passed unconditionally, so the column becomes a JSONB value, never `NULL`).
A row with `NULL` parent matches nothing. -/
def backfillRow (ups : List (String × Props)) (r : DBRow) : DBRow :=
  match r.parent_item_id with
  | some p =>
    match lookupA ups p with
    | some props => { r with event_properties := some props }
    | none => r
  | none => r

/-- Semantics of `get_update_events_parents_query` over the whole store. -/
def applyParentBackfill (ups : List (String × Props)) (store : List DBRow) :
    List DBRow :=
  store.map (backfillRow ups)

/-- Embeds `Database.insert_events_batch` (`src/etl/db/db.py`): empty input
returns 0 with no I/O; otherwise insert-or-ignore of all rows followed by
the parent-property backfill, in one transaction; returns the store after
commit and the count of newly inserted rows. -/
def insertEventsBatchDB (store : List DBRow) (events : List Event) :
    List DBRow × Nat :=
  if events = [] then (store, 0)
  else
    let t := insertEventsNew store events
    (applyParentBackfill (parentUpdates events) t.1, t.2)

/-! ### Persistence layer, variant 2
(`src/worker/external/wpe_db/client.py` with `src/worker/external/wpe_db/sql.py`). -/

/-- A stored row of the richer events table (`SQLQuery.create_events_table`):
the same columns plus `version`/`specific_version`. -/
structure WpeRow where
  source_kind_id : String
  parent_item_id : Option String
  event_id : String
  event_type : String
  relation_type : String
  employee_id : String
  event_time_utc : String
  week : String
  timezone : Option String
  event_time : Option String
  event_properties : Option Props
  relation_properties : Option Props
  metrics : Option Props
  version : String
  specific_version : String
deriving Repr, DecidableEq

/-- The VALUES tuple built for one event by
`WorkplaceDBClient.insert_events_batch` (same falsy-map-to-NULL rule, plus
the version columns). -/
def wpeRowOfEvent (e : Event) : WpeRow :=
  { source_kind_id := e.source_kind_id
    parent_item_id := e.parent_item_id
    event_id := e.event_id
    event_type := e.event_type
    relation_type := e.relation_type
    employee_id := e.employee_id
    event_time_utc := e.event_time_utc
    week := e.week
    timezone := some e.timezone
    event_time := some e.event_time
    event_properties := if e.event_properties = [] then none else some e.event_properties
    relation_properties := if e.relation_properties = [] then none else some e.relation_properties
    metrics := if e.metrics = [] then none else some e.metrics
    version := e.version
    specific_version := e.specific_version }

/-- Semantics of `SQLQuery.update_event_properties`: every stored row whose
`event_id` appears in the batch gets `event_properties`, `metrics`,
`version` and `specific_version` refreshed from that event (`Json(...)` is
passed unconditionally). Rows not matched by `event_id` — including rows
that merely share a `parent_item_id` — are untouched. -/
def wpeUpdatePhase (events : List Event) (store : List WpeRow) : List WpeRow :=
  store.map fun r =>
    match (events.filter (fun e => e.event_id = r.event_id)).getLast? with
    | some e =>
      { r with
          event_properties := some e.event_properties
          metrics := some e.metrics
          version := e.version
          specific_version := e.specific_version }
    | none => r

/-- The insert-or-ignore phase of the wpe client (same conflict key). -/
def wpeInsertNew (store : List WpeRow) : List Event → List WpeRow × Nat
  | [] => (store, 0)
  | e :: es =>
    if (store.map (·.event_id)).contains e.event_id then wpeInsertNew store es
    else
      let t := wpeInsertNew (store ++ [wpeRowOfEvent e]) es
      (t.1, t.2 + 1)

/-- Embeds `WorkplaceDBClient.insert_events_batch`: empty input returns 0;
otherwise the by-`event_id` refresh UPDATE runs first, then the
insert-or-ignore of new rows; returns the committed store and the count of
newly inserted rows. -/
def wpeInsertEventsBatch (store : List WpeRow) (events : List Event) :
    List WpeRow × Nat :=
  if events = [] then (store, 0)
  else
    let s1 := wpeUpdatePhase events store
    wpeInsertNew s1 events

/-! ### Retry loops (`src/db/db.py`) -/

/-- Embeds the retry loop of `Database.insert_events_batch`
(`for attempt in range(max_retries + 1)`), recursing on the number of
retries still allowed (`remaining = max_retries - attempt`). The operation
is a function of the attempt index (each attempt hits a possibly different
environment). Returns the final outcome, the number of attempts made, and
the list of backoff sleeps (in seconds, `1.0 * (2 ** attempt)`) performed
between attempts. On the last allowed attempt an error is re-raised without
sleeping. -/
def retryGo (op : Nat → Except String Nat) : Nat → Nat → Except String Nat × Nat × List Nat
  | attempt, 0 => (op attempt, attempt + 1, [])
  | attempt, r + 1 =>
    match op attempt with
    | .ok n => (.ok n, attempt + 1, [])
    | .error _ =>
      let t := retryGo op (attempt + 1) r
      (t.1, t.2.1, 2 ^ attempt :: t.2.2)

/-- Embeds `Database.insert_events_batch`'s retry behavior with retry budget
`maxRetries` (source default `max_retries = 3`). -/
def insertBatchRetry (op : Nat → Except String Nat) (maxRetries : Nat) :
    Except String Nat × Nat × List Nat :=
  retryGo op 0 maxRetries

/-- Outcome of one `get_connection` attempt: a healthy pooled connection, an
unhealthy one (discarded, next attempt follows without sleeping), or an
exception (sleep-then-retry unless the budget is exhausted). -/
inductive ConnOutcome where
  | ok : ConnOutcome
  | unhealthy : ConnOutcome
  | err : String → ConnOutcome
deriving Repr, DecidableEq

/-- Embeds the loop of `Database.get_connection`: success returns
immediately; an unhealthy connection is discarded and the loop continues
without backoff; an exception sleeps `retry_delay * (2 ** attempt)` before
the next attempt; when all `max_retries + 1` attempts are used up, the
wrapping `Exception` is raised (`false` here). Returns success flag,
attempts made, and sleeps performed. -/
def connRetryGo (op : Nat → ConnOutcome) (d : Nat) : Nat → Nat → Bool × Nat × List Nat
  | attempt, 0 =>
    match op attempt with
    | .ok => (true, attempt + 1, [])
    | _ => (false, attempt + 1, [])
  | attempt, r + 1 =>
    match op attempt with
    | .ok => (true, attempt + 1, [])
    | .unhealthy =>
      let t := connRetryGo op d (attempt + 1) r
      (t.1, t.2.1, t.2.2)
    | .err _ =>
      let t := connRetryGo op d (attempt + 1) r
      (t.1, t.2.1, d * 2 ^ attempt :: t.2.2)

/-- Embeds `Database.get_connection` with retry budget `maxRetries` (source
default `max_retries = 3`) and base delay `d` (source default `1.0`). -/
def getConnectionRetry (op : Nat → ConnOutcome) (maxRetries d : Nat) :
    Bool × Nat × List Nat :=
  connRetryGo op d 0 maxRetries

/-! ### Pipeline orchestrator (`src/worker/models/etl/flow.py`) -/

/-- Contiguous chunks of size `c`: the slicing loop
`for i in range(0, len(extracted), self.BATCH_SIZE)` takes the slice
`extracted[i : i + B]` at starts `0, B, 2B, …`, i.e. chunk `k` is
`(l.drop (k * c)).take c` and the loop runs `⌈len / c⌉` times (`c = 0` is
invalid in the source — `range` would raise — and is mapped to no chunks). -/
def chunksOf {α : Type} (c : Nat) (l : List α) : List (List α) :=
  (List.range ((l.length + c - 1) / c)).map (fun i => (l.drop (i * c)).take c)

/-- Recursive reference form of `chunksOf`, used by the proofs: peel off the
first `c` elements, recurse on the rest. -/
def chunksRec {α : Type} (c : Nat) : List α → List (List α)
  | [] => []
  | a :: l =>
    if _h : c = 0 then []
    else (a :: l).take c :: chunksRec c ((a :: l).drop c)
termination_by l => l.length
decreasing_by
  simp only [List.length_drop, List.length_cons]
  omega

/-- The run summary assembled by `ETLFlow.run`. -/
structure RunSummary where
  items_extracted : Nat
  items_processed : Nat
  items_inserted : Nat
  chunks_processed : Nat
deriving Repr, DecidableEq

/-- Embeds the aggregation of `ETLFlow.run`: empty extraction returns the
summary early with zero counts; otherwise each chunk is transformed and
loaded, and the per-chunk `(len(transformed), inserted)` pairs and the
chunk counter are summed into the summary. Chunk tasks run under a
concurrency cap, but every chunk contributes its pair exactly once
regardless of completion order, so the totals equal this sequential fold. -/
def etlRunModel {ρ : Type} (batchSize : Nat) (transform : List ρ → List Event)
    (load : List Event → Nat) (extracted : List ρ) : RunSummary :=
  if extracted.isEmpty then
    { items_extracted := extracted.length
      items_processed := 0
      items_inserted := 0
      chunks_processed := 0 }
  else
    let totals :=
      (chunksOf batchSize extracted).foldl
        (fun (acc : Nat × Nat × Nat) chunk =>
          let t := transform chunk
          (acc.1 + t.length, acc.2.1 + load t, acc.2.2 + 1))
        (0, 0, 0)
    { items_extracted := extracted.length
      items_processed := totals.1
      items_inserted := totals.2.1
      chunks_processed := totals.2.2 }

/-! ### Bounded concurrency (`asyncio.Semaphore(MAX_CONCURRENT_CHUNKS)` in
`ETLFlow.run`), as a transition system: a chunk task acquires the semaphore
before its transform+load work and releases it afterwards. -/

/-- Lifecycle phase of one chunk task. -/
inductive ChunkPhase where
  | pending : ChunkPhase
  | inFlight : ChunkPhase
  | done : ChunkPhase
deriving Repr, DecidableEq

/-- Scheduler state: the semaphore counter and the phase of every chunk. -/
structure SchedState where
  semValue : Nat
  chunks : List ChunkPhase
deriving Repr, DecidableEq

/-- Number of chunk tasks currently inside the `async with` block, i.e.
with transform+load in flight. -/
def inFlightCount (s : SchedState) : Nat :=
  s.chunks.countP (fun c => c = ChunkPhase.inFlight)

/-- Transitions: `acquire` (the semaphore's `__aenter__` succeeds only while
the counter is positive) starts a pending chunk's work; `release`
(`__aexit__`) finishes an in-flight chunk. Work may stay in flight for
arbitrarily many steps of other tasks (an arbitrarily slow load). -/
inductive SchedStep : SchedState → SchedState → Prop where
  | acquire (s : SchedState) (i : Nat) (hsem : 0 < s.semValue)
      (hch : s.chunks.get? i = some ChunkPhase.pending) :
      SchedStep s ⟨s.semValue - 1, s.chunks.set i ChunkPhase.inFlight⟩
  | release (s : SchedState) (i : Nat)
      (hch : s.chunks.get? i = some ChunkPhase.inFlight) :
      SchedStep s ⟨s.semValue + 1, s.chunks.set i ChunkPhase.done⟩

/-- Initial state of a run: the semaphore holds `maxConc`
(`MAX_CONCURRENT_CHUNKS`, source default 3) and all `n` chunks are pending. -/
def initSched (maxConc n : Nat) : SchedState :=
  ⟨maxConc, List.replicate n ChunkPhase.pending⟩

/-- States reachable during one run of the orchestrator. -/
inductive SchedReachable (maxConc n : Nat) : SchedState → Prop where
  | init : SchedReachable maxConc n (initSched maxConc n)
  | step {s t : SchedState} : SchedReachable maxConc n s → SchedStep s t →
      SchedReachable maxConc n t

/-! ### The earlier Event revision (`src/models/event.py`) -/

/-- The `Event` dataclass of `src/models/event.py` (the earlier revision):
`id`/`parent_id`/`type`/`time_utc` naming, an optional
`relation_properties` map, and explicit mutator methods. -/
structure EventV1 where
  id : String
  parent_id : String
  week : String
  employee_id : String
  type : String
  time_utc : String
  source_kind_id : String
  relation_properties : Option Props
deriving Repr, DecidableEq

/-- Embeds `Event.add_relation_property`: sets
`relation_properties[key] = value` on the event — an in-place mutation of a
constructed event in the source, explicit state passing here. -/
def addRelationProperty (e : EventV1) (k v : String) : EventV1 :=
  { e with
      relation_properties := some (insertReplace (e.relation_properties.getD []) k v) }

/-! ### Specification-side helpers -/

/-- The `event_properties` of the most recently extracted (last-occurring)
event for parent `p` in a batch — the value §4.2 of the spec says the
backfill must apply. -/
def lastPropsFor (p : String) : List Event → Option Props
  | [] => none
  | e :: es =>
    match lastPropsFor p es with
    | some q => some q
    | none => if e.parent_item_id = some p then some e.event_properties else none

/-- Day number of 2024-01-01, a known Monday, anchoring the week-start
specification independently of `pyWeekday`. -/
def mondayAnchorDays : Int := daysFromCivil { year := 2024, month := 1, day := 1 }

/-! ### Concrete instances used by the witnesses and counterexamples -/

/-- First-batch event for parent `b-1` (backfill scenario). -/
def cEventB1 : Event :=
  { id := none
    source_kind_id := "launchpad"
    parent_item_id := some "b-1"
    event_id := "e1"
    event_type := "bug_created"
    relation_type := "author"
    employee_id := "E1"
    event_time_utc := "2024-03-06T10:00:00Z"
    week := "2024-03-04"
    timezone := "UTC"
    event_time := "2024-03-06T10:00:00+00:00"
    event_properties := [("title", "v1")]
    relation_properties := []
    metrics := []
    version := "2"
    specific_version := "2.0.0" }

/-- Second-batch event for the same parent with refreshed properties. -/
def cEventB2 : Event :=
  { cEventB1 with event_id := "e2", event_properties := [("title", "v2")] }

/-- The store after loading the first batch through the `Database` variant. -/
def cStoreAfterB1 : List DBRow := (insertEventsBatchDB [] [cEventB1]).1

/-- The first stored row after both batches are loaded through the
`Database` variant: its properties carry the second batch's value. -/
def cBackfilledRow : DBRow :=
  { source_kind_id := "launchpad"
    parent_item_id := some "b-1"
    event_id := "e1"
    event_type := "bug_created"
    relation_type := "author"
    employee_id := "E1"
    event_time_utc := "2024-03-06T10:00:00Z"
    week := "2024-03-04"
    timezone := some "UTC"
    event_time := some "2024-03-06T10:00:00+00:00"
    event_properties := some [("title", "v2")]
    relation_properties := none
    metrics := none }

/-- A well-formed launchpad raw record. -/
def cGoodRec : RawRecord :=
  { parent_item_id := some (some "b-1")
    event_id := some "e1"
    event_type := some "bug_created"
    relation_type := some "author"
    employee_id := some "lp-bob"
    event_time_utc := some "2024-03-06T10:00:00Z"
    time_zone := none
    event_properties := some [("title", "t")]
    relation_properties := none
    metrics := none }

/-- A raw record with no `employee_id` key — the one malformed record of
the isolation scenario. -/
def cBadRec : RawRecord := { cGoodRec with employee_id := none }

/-- A raw record whose `employee_id` is present but whose `event_id` is
empty, so `Event` construction fails inside the `try` block. -/
def cNoEventIdRec : RawRecord := { cGoodRec with event_id := some "" }

/-- A 100-record chunk with exactly one malformed record (empty
`event_id`), every record carrying an `employee_id`. -/
def cChunk100 : List RawRecord := List.replicate 99 cGoodRec ++ [cNoEventIdRec]

/-- A stand-in hash for `models.hash.sha256` (an external library function,
a parameter of the transform model). -/
def cHash : String → String := fun s => String.append "sha256:" s

/-- Employee-id resolution map with two known members. -/
def cQMap : List (String × String) := [("lp-bob", "EMP2"), ("lp-alice", "EMP1")]

/-- A `question_created` raw record whose parent properties name an
assignee; the transform mutates the constructed event's
`relation_properties` for such records. -/
def cQRec : RawRecord :=
  { cGoodRec with
      event_type := some "question_created"
      event_properties := some [("assignee", "lp-alice")] }

/-- The event the launchpad transform produces from `cQRec`: relative to
its constructed state, `relation_properties` has gained the resolved
assignee. -/
def cQOutEvent : Event :=
  { id := none
    source_kind_id := "launchpad"
    parent_item_id := some "b-1"
    event_id := "e1"
    event_type := "question_created"
    relation_type := "author"
    employee_id := "EMP2"
    event_time_utc := "2024-03-06T10:00:00Z"
    week := "2024-03-04"
    timezone := "UTC"
    event_time := "2024-03-06T10:00:00+00:00"
    event_properties := [("assignee", "lp-alice")]
    relation_properties := [("assignee", "EMP1")]
    metrics := []
    version := "2"
    specific_version := "2.0.0" }

/-- A constructed `EventV1` value. -/
def cV1Event : EventV1 :=
  { id := "bug-1-created"
    parent_id := "bug-1"
    week := "2024-03-04"
    employee_id := "E1"
    type := "bug:created"
    time_utc := "2024-03-06T10:00:00Z"
    source_kind_id := "launchpad"
    relation_properties := some [] }

/-- Constructor arguments of the week-derivation scenario: a Wednesday
timestamp and no explicit `week`. -/
def cWeekFields : EventFields :=
  { id := none
    source_kind_id := "launchpad"
    parent_item_id := some "b-1"
    event_id := "e1"
    event_type := "bug_created"
    relation_type := "author"
    employee_id := "E1"
    event_time_utc := "2024-03-06T10:00:00Z"
    week := none
    timezone := none
    event_time := none
    event_properties := none
    relation_properties := none
    metrics := none
    version := "2"
    specific_version := "2.0.0" }

/-- The event constructed from `cWeekFields` (week derived to the Monday
2024-03-04). -/
def cWeekEvent : Event :=
  { id := none
    source_kind_id := "launchpad"
    parent_item_id := some "b-1"
    event_id := "e1"
    event_type := "bug_created"
    relation_type := "author"
    employee_id := "E1"
    event_time_utc := "2024-03-06T10:00:00Z"
    week := "2024-03-04"
    timezone := "UTC"
    event_time := "2024-03-06T10:00:00+00:00"
    event_properties := []
    relation_properties := []
    metrics := []
    version := "2"
    specific_version := "2.0.0" }

/-- A concrete valid event used by the idempotency instance. -/
def cIdemEvent : Event :=
  { id := none
    source_kind_id := "launchpad"
    parent_item_id := some "b-1"
    event_id := "e1"
    event_type := "bug_created"
    relation_type := "author"
    employee_id := "E1"
    event_time_utc := "2024-03-06T10:00:00Z"
    week := "2024-03-04"
    timezone := "UTC"
    event_time := "2024-03-06T10:00:00+00:00"
    event_properties := [("title", "v1")]
    relation_properties := []
    metrics := []
    version := "2"
    specific_version := "2.0.0" }

/-! ## Theorems -/

/-- C6: for every Event construction where any of the required fields
`source_kind_id`, `event_id`, `event_type`, `relation_type`, `employee_id`,
`event_time_utc` is empty, construction fails immediately with a descriptive
error naming the offending field (the checks run in source order); in
particular, `employee_id = ""` fails with the employee-ID error even when
every other field is valid. -/
theorem event_construction_validation (f : EventFields) :
    (f.source_kind_id = "" → mkEvent f = .error "Source kind ID cannot be empty") ∧
    (f.source_kind_id ≠ "" → f.event_id = "" →
      mkEvent f = .error "Event ID cannot be empty") ∧
    (f.source_kind_id ≠ "" → f.event_id ≠ "" → f.event_type = "" →
      mkEvent f = .error "Event type cannot be empty") ∧
    (f.source_kind_id ≠ "" → f.event_id ≠ "" → f.event_type ≠ "" →
      f.relation_type = "" → mkEvent f = .error "Relation type cannot be empty") ∧
    (f.source_kind_id ≠ "" → f.event_id ≠ "" → f.event_type ≠ "" →
      f.relation_type ≠ "" → f.employee_id = "" →
      mkEvent f = .error "Employee ID cannot be empty") ∧
    (f.source_kind_id ≠ "" → f.event_id ≠ "" → f.event_type ≠ "" →
      f.relation_type ≠ "" → f.employee_id ≠ "" → f.event_time_utc = "" →
      mkEvent f = .error "Event time cannot be empty") := by
  unfold mkEvent
  refine ⟨?_, ?_, ?_, ?_, ?_, ?_⟩ <;> intros <;> simp_all

/-- Concrete instance for C6: an `Event` whose fields are all valid except
`employee_id = ""` is rejected with the employee-ID error. -/
theorem event_construction_validation_witness :
    mkEvent
      { id := none
        source_kind_id := "launchpad"
        parent_item_id := some "b-1"
        event_id := "e1"
        event_type := "bug_created"
        relation_type := "author"
        employee_id := ""
        event_time_utc := "2024-03-06T10:00:00Z"
        week := none
        timezone := none
        event_time := none
        event_properties := none
        relation_properties := none
        metrics := none
        version := "2"
        specific_version := "2.0.0" } = .error "Employee ID cannot be empty" :=
  (event_construction_validation _).2.2.2.2.1 (by decide) (by decide) (by decide)
    (by decide) rfl

/-- C10: an Event whose `event_properties`, `relation_properties` or
`metrics` is the empty map is persisted with SQL `NULL` in the corresponding
column (both insert variants), not as an empty JSON object, while a
non-empty map is stored as its JSONB value — so the in-memory never-null
invariant is not preserved by the stored representation. -/
theorem empty_maps_persist_as_null (e : Event) :
    (e.event_properties = [] →
      (rowOfEvent e).event_properties = none ∧ (wpeRowOfEvent e).event_properties = none) ∧
    (e.relation_properties = [] →
      (rowOfEvent e).relation_properties = none ∧ (wpeRowOfEvent e).relation_properties = none) ∧
    (e.metrics = [] →
      (rowOfEvent e).metrics = none ∧ (wpeRowOfEvent e).metrics = none) ∧
    (e.event_properties ≠ [] →
      (rowOfEvent e).event_properties = some e.event_properties ∧
      (wpeRowOfEvent e).event_properties = some e.event_properties) := by
  unfold rowOfEvent wpeRowOfEvent
  refine ⟨?_, ?_, ?_, ?_⟩ <;> intro h <;> simp [h]

/-- Concrete instance for C10: an Event whose three maps are all empty is
stored with `NULL` in all three JSON columns. -/
theorem empty_maps_persist_as_null_witness :
    (rowOfEvent
      { id := none
        source_kind_id := "launchpad"
        parent_item_id := some "b-1"
        event_id := "e1"
        event_type := "bug_created"
        relation_type := "author"
        employee_id := "E1"
        event_time_utc := "2024-03-06T10:00:00Z"
        week := "2024-03-04"
        timezone := "UTC"
        event_time := "2024-03-06T10:00:00+00:00"
        event_properties := []
        relation_properties := []
        metrics := []
        version := "2"
        specific_version := "2.0.0" }).event_properties = none :=
  ((empty_maps_persist_as_null _).1 rfl).1

/-- Sleeps performed by the retry loop starting at attempt `a` are exactly
the doubling sequence `2^a, 2^(a+1), …` truncated at the point of success
or exhaustion. -/
lemma retryGo_sleeps_shape (op : Nat → Except String Nat) :
    ∀ (r a : Nat), ∃ k, k ≤ r ∧
      (retryGo op a r).2.2 = (List.range' a k).map (fun i => 2 ^ i)
  | 0, a => ⟨0, by simp [retryGo]⟩
  | r + 1, a => by
    cases hop : op a with
    | ok n => exact ⟨0, by simp [retryGo, hop]⟩
    | error e =>
      obtain ⟨k, hk, hs⟩ := retryGo_sleeps_shape op r (a + 1)
      exact ⟨k + 1, by omega, by simp [retryGo, hop, hs, List.range']⟩

/-- The doubling sequence is nondecreasing. -/
lemma chain_pow_range' : ∀ (k a : Nat),
    (((List.range' a k).map (fun i => 2 ^ i)).Chain' (· ≤ ·))
  | 0, _ => by simp
  | 1, a => by simp [List.range']
  | k + 2, a => by
    have ih := chain_pow_range' (k + 1) (a + 1)
    simp only [List.range', List.map_cons, List.chain'_cons] at ih ⊢
    exact ⟨Nat.pow_le_pow_right (by norm_num) (Nat.le_succ a), ih⟩

/-- When every attempt up to the budget fails, the loop performs all
`r + 1` attempts from attempt `a` on, sleeps the full doubling sequence,
and re-raises the error of the last attempt. -/
lemma retryGo_all_fail (op : Nat → Except String Nat) (e : Nat → String) :
    ∀ (r a : Nat), (∀ k, a ≤ k → k ≤ a + r → op k = .error (e k)) →
      retryGo op a r = (.error (e (a + r)), a + r + 1, (List.range' a r).map (fun i => 2 ^ i))
  | 0, a, h => by simp [retryGo, h a le_rfl (by omega)]
  | r + 1, a, h => by
    have ih := retryGo_all_fail op e r (a + 1) (fun k h1 h2 => h k (by omega) (by omega))
    have ha : a + 1 + r = a + (r + 1) := by omega
    simp only [retryGo, h a le_rfl (by omega), ih, ha, List.range', List.map_cons]

/-- C5 (amended): with the source default `max_retries = 3` the loop makes
up to four attempts (one initial plus three retries). An operation failing
twice then succeeding makes exactly 3 attempts and succeeds, sleeping 1s
then 2s; backoff sleeps double per attempt and are nondecreasing in every
run; when every attempt fails, all `max_retries + 1` attempts are made, the
full doubling sleep sequence is performed, and the last error is raised.
Pooled connection acquisition behaves the same with base delay `d`. -/
theorem retry_exponential_backoff :
    (∀ (op : Nat → Except String Nat) (e0 e1 : String) (n : Nat),
      op 0 = .error e0 → op 1 = .error e1 → op 2 = .ok n →
      insertBatchRetry op 3 = (.ok n, 3, [1, 2])) ∧
    (∀ (op : Nat → Except String Nat) (maxR : Nat),
      ((insertBatchRetry op maxR).2.2).Chain' (· ≤ ·)) ∧
    (∀ (op : Nat → Except String Nat) (e : Nat → String) (maxR : Nat),
      (∀ k, k ≤ maxR → op k = .error (e k)) →
      insertBatchRetry op maxR =
        (.error (e maxR), maxR + 1, (List.range maxR).map (fun i => 2 ^ i))) ∧
    (∀ (op : Nat → ConnOutcome) (d : Nat) (e0 e1 : String),
      op 0 = .err e0 → op 1 = .err e1 → op 2 = .ok →
      getConnectionRetry op 3 d = (true, 3, [d * 1, d * 2])) := by
  refine ⟨?_, ?_, ?_, ?_⟩
  · intro op e0 e1 n h0 h1 h2
    simp [insertBatchRetry, retryGo, h0, h1, h2]
  · intro op maxR
    obtain ⟨k, _, hs⟩ := retryGo_sleeps_shape op maxR 0
    rw [insertBatchRetry, hs]
    exact chain_pow_range' k 0
  · intro op e maxR h
    have := retryGo_all_fail op e maxR 0 (fun k h1 h2 => h k (by omega))
    simpa [insertBatchRetry, List.range_eq_range'] using this
  · intro op d e0 e1 h0 h1 h2
    simp [getConnectionRetry, connRetryGo, h0, h1, h2]

/-- Concrete instance for C5 (amended): an operation failing on attempts 0
and 1 and succeeding on attempt 2 yields overall success after exactly 3
attempts with nondecreasing sleeps of 1s then 2s. -/
theorem retry_exponential_backoff_witness :
    insertBatchRetry (fun k => if k < 2 then .error "pool exhausted" else .ok 5) 3 =
      (.ok 5, 3, [1, 2]) :=
  retry_exponential_backoff.1 _ "pool exhausted" "pool exhausted" 5 rfl rfl rfl

/-- Counterexample for C5 as stated: with the default budget, an operation
that fails on its first three attempts is still retried a fourth time and
the call succeeds after 4 attempts — the code performs `max_retries = 3`
RETRIES (4 attempts), not a fixed total attempt count of 3 after which the
error would be raised. -/
theorem retry_fourth_attempt_counterexample :
    insertBatchRetry (fun k => if k < 3 then .error "connection refused" else .ok 7) 3 =
      (.ok 7, 4, [1, 2, 4]) := by
  rfl

/-- Ceiling-division peels one chunk: for `n ≥ 1`,
`⌈n / c⌉ = ⌈(n - c) / c⌉ + 1`. -/
lemma ceil_div_step (c n : Nat) (hc : c ≠ 0) (hn : 1 ≤ n) :
    (n + c - 1) / c = (n - c + c - 1) / c + 1 := by
  have hc0 : 0 < c := Nat.pos_of_ne_zero hc
  rcases le_or_lt n c with hle | hlt
  · have h1 : n + c - 1 = (n - 1) + c := by omega
    have h2 : n - c = 0 := by omega
    rw [h1, Nat.add_div_right _ hc0, h2]
    have h3 : (n - 1) / c = 0 := Nat.div_eq_of_lt (by omega)
    have h4 : (0 + c - 1) / c = 0 := Nat.div_eq_of_lt (by omega)
    rw [h3, h4]
  · have h1 : n + c - 1 = (n - 1) + c := by omega
    have h2 : n - c + c - 1 = (n - c - 1) + c := by omega
    rw [h1, h2, Nat.add_div_right _ hc0, Nat.add_div_right _ hc0]
    have h3 : n - 1 = (n - c - 1) + c := by omega
    rw [h3, Nat.add_div_right _ hc0]

/-- Unfolding lemma for `chunksRec` at the empty list. -/
lemma chunksRec_nil {α : Type} (c : Nat) : chunksRec c ([] : List α) = [] := by
  rw [chunksRec]

/-- Unfolding lemma for `chunksRec` on a nonempty list. -/
lemma chunksRec_cons {α : Type} (c : Nat) (hc : c ≠ 0) (a : α) (l : List α) :
    chunksRec c (a :: l) = (a :: l).take c :: chunksRec c ((a :: l).drop c) := by
  rw [chunksRec]
  simp [hc]

/-- The executable slicing form agrees with the recursive reference form. -/
lemma chunksOf_eq_chunksRec {α : Type} (c : Nat) (hc : c ≠ 0) :
    ∀ l : List α, chunksOf c l = chunksRec c l
  | [] => by
    have h0 : (c - 1) / c = 0 := Nat.div_eq_of_lt (by omega)
    simp [chunksOf, chunksRec_nil, h0]
  | a :: l => by
    have hn : 1 ≤ (a :: l).length := by simp
    have ih := chunksOf_eq_chunksRec c hc ((a :: l).drop c)
    rw [chunksRec_cons c hc, ← ih]
    unfold chunksOf
    rw [ceil_div_step c (a :: l).length hc hn]
    rw [List.range_succ_eq_map]
    simp only [List.map_cons, List.map_map, Nat.zero_mul, List.drop_zero,
      List.length_drop]
    refine congrArg (fun t => (a :: l).take c :: t) ?_
    refine List.map_congr_left ?_
    intro i _
    simp only [Function.comp_apply]
    rw [List.drop_drop]
    refine congrArg (List.take c) (congrArg (List.drop · (a :: l)) ?_)
    simp only [Nat.succ_mul]
    ring
termination_by l => l.length
decreasing_by
  simp only [List.length_drop, List.length_cons]
  omega

/-- Flattening the chunks gives back the original list. -/
lemma chunksRec_flatten {α : Type} (c : Nat) (hc : c ≠ 0) :
    ∀ l : List α, (chunksRec c l).flatten = l
  | [] => by simp [chunksRec_nil]
  | a :: l => by
    rw [chunksRec_cons c hc, List.flatten_cons,
      chunksRec_flatten c hc ((a :: l).drop c), List.take_append_drop]
termination_by l => l.length
decreasing_by
  simp only [List.length_drop, List.length_cons]
  omega

/-- A chunk list is empty exactly for empty input. -/
lemma chunksRec_eq_nil_iff {α : Type} (c : Nat) (hc : c ≠ 0) (l : List α) :
    chunksRec c l = [] ↔ l = [] := by
  cases l with
  | nil => simp [chunksRec_nil]
  | cons a t => rw [chunksRec_cons c hc]; simp

/-- Every chunk except possibly the last has exactly `c` elements. -/
lemma chunksRec_dropLast_sizes {α : Type} (c : Nat) (hc : c ≠ 0) :
    ∀ (l : List α), ∀ ch ∈ (chunksRec c l).dropLast, ch.length = c
  | [] => by simp [chunksRec_nil]
  | a :: l => by
    intro ch hch
    rw [chunksRec_cons c hc] at hch
    by_cases hd : (a :: l).drop c = []
    · rw [hd, chunksRec_nil] at hch
      simp at hch
    · have hne : chunksRec c ((a :: l).drop c) ≠ [] :=
        fun h => hd ((chunksRec_eq_nil_iff c hc _).mp h)
      rw [List.dropLast_cons_of_ne_nil hne, List.mem_cons] at hch
      rcases hch with rfl | hch
      · have hlen : c < (a :: l).length := by
          by_contra hcon
          push_neg at hcon
          exact hd (List.drop_eq_nil_of_le hcon)
        simp only [List.length_take, List.length_cons]
        simp only [List.length_cons] at hlen
        omega
      · exact chunksRec_dropLast_sizes c hc ((a :: l).drop c) ch hch
termination_by l => l.length
decreasing_by
  simp only [List.length_drop, List.length_cons]
  omega

/-- When `c` does not divide the input length, the final chunk has
`len mod c` elements. -/
lemma chunksRec_getLast_length {α : Type} (c : Nat) (hc : c ≠ 0) :
    ∀ (l : List α), ¬ c ∣ l.length →
      (chunksRec c l).getLast?.map List.length = some (l.length % c)
  | [], hnd => by simp at hnd
  | a :: l, hnd => by
    rw [chunksRec_cons c hc]
    by_cases hd : (a :: l).drop c = []
    · have hlen : (a :: l).length ≤ c := by
        by_contra hcon
        push_neg at hcon
        have h2 : (a :: l).drop c ≠ [] := by
          rw [ne_eq, List.drop_eq_nil_iff]
          omega
        exact h2 hd
      have hlt : (a :: l).length < c := by
        rcases eq_or_lt_of_le hlen with heq | h
        · exact absurd (heq ▸ dvd_refl c) hnd
        · exact h
      rw [hd, chunksRec_nil, List.take_of_length_le hlen]
      have hlt2 : l.length + 1 < c := by simpa using hlt
      simp [Nat.mod_eq_of_lt hlt2]
    · have hne : chunksRec c ((a :: l).drop c) ≠ [] :=
        fun h => hd ((chunksRec_eq_nil_iff c hc _).mp h)
      have hcl : c ≤ (a :: l).length := by
        by_contra hcon
        push_neg at hcon
        exact hd (List.drop_eq_nil_of_le (by omega))
      have hnd2 : ¬ c ∣ ((a :: l).drop c).length := by
        rw [List.length_drop]
        intro hdvd
        exact hnd (by
          have h2 := Nat.dvd_add hdvd (dvd_refl c)
          rwa [Nat.sub_add_cancel hcl] at h2)
      have ih := chunksRec_getLast_length c hc ((a :: l).drop c) hnd2
      obtain ⟨y, ys, hys⟩ := List.exists_cons_of_ne_nil hne
      rw [hys] at ih
      rw [hys, List.getLast?_cons_cons, ih, List.length_drop]
      exact congrArg some (Nat.mod_eq_sub_mod hcl).symm
termination_by l => l.length
decreasing_by
  simp only [List.length_drop, List.length_cons]
  omega

/-- A fold whose step increments the third component counts the list. -/
lemma foldl_third_count {ρ : Type} (f : Nat × Nat × Nat → List ρ → Nat × Nat × Nat)
    (hf : ∀ acc ch, (f acc ch).2.2 = acc.2.2 + 1) :
    ∀ (chunks : List (List ρ)) (acc : Nat × Nat × Nat),
      (chunks.foldl f acc).2.2 = acc.2.2 + chunks.length
  | [], acc => by simp
  | ch :: chs, acc => by
    simp only [List.foldl_cons, List.length_cons]
    rw [foldl_third_count f hf chs (f acc ch), hf acc ch]
    omega

/-- C4: for every extracted input of length `L` and chunk size `C > 0`, the
orchestrator partitions the input into `⌈L/C⌉` contiguous chunks whose
concatenation is the input (so the sizes sum to `L`), each chunk before the
last has exactly `C` elements, the final chunk has `L mod C` elements when
`C` does not divide `L`, and the run summary reports
`chunks_processed = ⌈L/C⌉` and `items_extracted = L`. -/
theorem chunking_invariant {α : Type} (C : Nat) (hC : 0 < C) (l : List α)
    (transform : List α → List Event) (load : List Event → Nat) :
    (chunksOf C l).length = (l.length + C - 1) / C ∧
    (chunksOf C l).flatten = l ∧
    ((chunksOf C l).map List.length).sum = l.length ∧
    (∀ ch ∈ (chunksOf C l).dropLast, ch.length = C) ∧
    (¬ C ∣ l.length → (chunksOf C l).getLast?.map List.length = some (l.length % C)) ∧
    (etlRunModel C transform load l).chunks_processed = (l.length + C - 1) / C ∧
    (etlRunModel C transform load l).items_extracted = l.length := by
  have hc : C ≠ 0 := by omega
  have heq := chunksOf_eq_chunksRec C hc l
  refine ⟨?_, ?_, ?_, ?_, ?_, ?_, ?_⟩
  · simp [chunksOf]
  · rw [heq]
    exact chunksRec_flatten C hc l
  · calc ((chunksOf C l).map List.length).sum
        = (chunksOf C l).flatten.length := (List.length_flatten _).symm
      _ = l.length := by rw [heq, chunksRec_flatten C hc l]
  · rw [heq]
    exact chunksRec_dropLast_sizes C hc l
  · intro hnd
    rw [heq]
    exact chunksRec_getLast_length C hc l hnd
  · unfold etlRunModel
    by_cases hl : l.isEmpty
    · have hnil : l = [] := by simpa [List.isEmpty_iff] using hl
      subst hnil
      simp
      exact (Nat.div_eq_of_lt (by omega)).symm
    · simp only [hl, Bool.false_eq_true, if_false]
      rw [foldl_third_count _ (fun _ _ => rfl) (chunksOf C l) (0, 0, 0)]
      simp [chunksOf]
  · unfold etlRunModel
    by_cases hl : l.isEmpty <;> simp [hl]

set_option maxRecDepth 10000 in
/-- Concrete instance for C4: 250 records with chunk size 100 give 3 chunks
of sizes 100, 100, 50, and the run summary reports 3 chunks processed. -/
theorem chunking_invariant_witness :
    ((chunksOf 100 (List.range 250)).length = (250 + 100 - 1) / 100) ∧
    ((chunksOf 100 (List.range 250)).map List.length = [100, 100, 50]) ∧
    ((etlRunModel 100 (fun _ => ([] : List Event)) (fun _ => 0)
        (List.range 250)).chunks_processed = 3) :=
  ⟨by
    have h := (chunking_invariant 100 (by omega) (List.range 250)
      (fun _ => ([] : List Event)) (fun _ => 0)).1
    simpa using h,
   by decide, by decide⟩

/-- The inserted row keeps the event's id. -/
@[simp] lemma rowOfEvent_event_id (e : Event) : (rowOfEvent e).event_id = e.event_id := rfl

/-- The backfill UPDATE leaves the row's conflict key unchanged. -/
@[simp] lemma backfillRow_event_id (ups : List (String × Props)) (r : DBRow) :
    (backfillRow ups r).event_id = r.event_id := by
  unfold backfillRow
  split
  · split <;> rfl
  · rfl

/-- The backfill UPDATE leaves the row's parent reference unchanged. -/
@[simp] lemma backfillRow_parent_item_id (ups : List (String × Props)) (r : DBRow) :
    (backfillRow ups r).parent_item_id = r.parent_item_id := by
  unfold backfillRow
  split
  · rename_i p hp
    split
    · rw [hp]
    · rfl
  · rfl

/-- The backfill UPDATE touches no key column: the ids of the store are
unchanged. -/
lemma storeIds_backfill (ups : List (String × Props)) (s : List DBRow) :
    storeIds (applyParentBackfill ups s) = storeIds s := by
  unfold applyParentBackfill storeIds
  rw [List.map_map]
  exact List.map_congr_left fun r _ => backfillRow_event_id ups r

/-- The backfill UPDATE inserts and deletes nothing. -/
lemma backfill_length (ups : List (String × Props)) (s : List DBRow) :
    (applyParentBackfill ups s).length = s.length := by
  simp [applyParentBackfill]

/-- Insert-or-ignore on a batch of fresh, pairwise-distinct ids appends one
row per event and counts them all. -/
lemma insertEventsNew_fresh :
    ∀ (es : List Event) (store : List DBRow),
      (∀ e ∈ es, e.event_id ∉ storeIds store) → (es.map (·.event_id)).Nodup →
      insertEventsNew store es = (store ++ es.map rowOfEvent, es.length)
  | [], store, _, _ => by simp [insertEventsNew]
  | e :: es, store, hfresh, hnodup => by
    have hmem : e.event_id ∉ storeIds store := hfresh e (by simp)
    have hcont : (storeIds store).contains e.event_id = false := by
      simpa using hmem
    have hfresh2 : ∀ x ∈ es, x.event_id ∉ storeIds (store ++ [rowOfEvent e]) := by
      intro x hx
      simp only [storeIds, List.map_append, List.map_cons, List.map_nil,
        List.mem_append, List.mem_cons, rowOfEvent_event_id]
      rintro (hin | hel)
      · exact hfresh x (by simp [hx]) hin
      · simp only [List.map_cons, List.nodup_cons] at hnodup
        rcases hel with hel | hel
        · exact hnodup.1 (hel ▸ List.mem_map_of_mem (·.event_id) hx)
        · simp at hel
    have hnodup2 : (es.map (·.event_id)).Nodup := by
      simp only [List.map_cons, List.nodup_cons] at hnodup
      exact hnodup.2
    have ih := insertEventsNew_fresh es (store ++ [rowOfEvent e]) hfresh2 hnodup2
    simp only [insertEventsNew, hcont, Bool.false_eq_true, if_false, ih,
      List.map_cons, List.length_cons]
    simp [List.append_assoc]

/-- Insert-or-ignore on a batch whose ids are all present inserts nothing. -/
lemma insertEventsNew_stale :
    ∀ (es : List Event) (store : List DBRow),
      (∀ e ∈ es, e.event_id ∈ storeIds store) →
      insertEventsNew store es = (store, 0)
  | [], store, _ => by simp [insertEventsNew]
  | e :: es, store, hpres => by
    have hmem : e.event_id ∈ storeIds store := hpres e (by simp)
    have hcont : (storeIds store).contains e.event_id = true := by
      simpa using hmem
    have ih := insertEventsNew_stale es store (fun x hx => hpres x (by simp [hx]))
    simp [insertEventsNew, hcont, ih, hmem]

/-- A batch whose ids are all present inserts nothing and leaves the row
count unchanged. -/
lemma insertEventsBatchDB_stale (store : List DBRow) (events : List Event)
    (hne : events ≠ [])
    (hpres : ∀ e ∈ events, e.event_id ∈ storeIds store) :
    (insertEventsBatchDB store events).2 = 0 ∧
    (insertEventsBatchDB store events).1.length = store.length := by
  have h := insertEventsNew_stale events store hpres
  simp [insertEventsBatchDB, hne, h, backfill_length]

/-- C1: `insert_events_batch` is idempotent on `event_id`. For a non-empty
batch of events with pairwise-distinct ids, all absent from the store, the
first call returns the batch size and grows the store by exactly that many
rows; calling it again with the same batch returns 0 and leaves the stored
row count unchanged — a re-submitted event is a no-op for that record, not
an error and not a duplicate row. -/
theorem insert_batch_idempotent (store : List DBRow) (events : List Event)
    (hne : events ≠ [])
    (hfresh : ∀ e ∈ events, e.event_id ∉ storeIds store)
    (hnodup : (events.map (·.event_id)).Nodup) :
    (insertEventsBatchDB store events).2 = events.length ∧
    (insertEventsBatchDB store events).1.length = store.length + events.length ∧
    (insertEventsBatchDB (insertEventsBatchDB store events).1 events).2 = 0 ∧
    (insertEventsBatchDB (insertEventsBatchDB store events).1 events).1.length =
      (insertEventsBatchDB store events).1.length := by
  have h1 := insertEventsNew_fresh events store hfresh hnodup
  have hs1 : (insertEventsBatchDB store events).1 =
      applyParentBackfill (parentUpdates events) (store ++ events.map rowOfEvent) := by
    simp [insertEventsBatchDB, hne, h1]
  have hcount : (insertEventsBatchDB store events).2 = events.length := by
    simp [insertEventsBatchDB, hne, h1]
  have hpres : ∀ e ∈ events, e.event_id ∈ storeIds (insertEventsBatchDB store events).1 := by
    intro e he
    rw [hs1, storeIds_backfill]
    simp only [storeIds, List.map_append, List.mem_append]
    right
    simp only [List.map_map]
    exact List.mem_map_of_mem _ he
  refine ⟨hcount, ?_, ?_, ?_⟩
  · rw [hs1, backfill_length]
    simp
  · exact (insertEventsBatchDB_stale _ events hne hpres).1
  · exact (insertEventsBatchDB_stale _ events hne hpres).2

/-- Concrete instance for C1: inserting one fresh event into an empty store
returns 1 and stores one row; repeating the same batch returns 0 and the
row count stays 1. -/
theorem insert_batch_idempotent_witness :
    (insertEventsBatchDB [] [cIdemEvent]).2 = 1 ∧
    (insertEventsBatchDB [] [cIdemEvent]).1.length = 0 + 1 ∧
    (insertEventsBatchDB (insertEventsBatchDB [] [cIdemEvent]).1 [cIdemEvent]).2 = 0 ∧
    (insertEventsBatchDB (insertEventsBatchDB [] [cIdemEvent]).1 [cIdemEvent]).1.length =
      (insertEventsBatchDB [] [cIdemEvent]).1.length :=
  insert_batch_idempotent [] [cIdemEvent] (by decide) (by decide) (by decide)

/-- Lookup after insert-or-replace. -/
lemma lookupA_insertReplace {α : Type} (l : List (String × α)) (k k1 : String) (v : α) :
    lookupA (insertReplace l k v) k1 = if k = k1 then some v else lookupA l k1 := by
  induction l with
  | nil => simp [insertReplace, lookupA]
  | cons h t ih =>
    obtain ⟨k2, v2⟩ := h
    by_cases h2 : k2 = k
    · subst h2
      simp only [insertReplace, if_pos rfl, lookupA]
      by_cases h3 : k2 = k1 <;> simp [h3]
    · simp only [insertReplace, if_neg h2, lookupA, ih]
      by_cases h3 : k2 = k1
      · have h4 : ¬ k = k1 := fun h5 => h2 (h3.trans h5.symm)
        simp [h3, h4]
      · simp [h3]

/-- The `parent_updates` dict holds, for each parent occurring in the batch,
exactly the properties of its last-occurring event. -/
lemma parentUpdates_foldl (p : String) (hp : p ≠ "") :
    ∀ (events : List Event) (acc : List (String × Props)),
      lookupA (events.foldl
        (fun acc e =>
          match e.parent_item_id with
          | some q => if q = "" then acc else insertReplace acc q e.event_properties
          | none => acc) acc) p =
      match lastPropsFor p events with
      | some q => some q
      | none => lookupA acc p
  | [], acc => by simp [lastPropsFor]
  | e :: es, acc => by
    rw [List.foldl_cons, parentUpdates_foldl p hp es]
    simp only [lastPropsFor]
    cases lastPropsFor p es with
    | some q => simp
    | none =>
      simp only []
      cases hpar : e.parent_item_id with
      | none =>
        have : ¬ (none : Option String) = some p := by simp
        simp [this]
      | some q =>
        by_cases hq : q = ""
        · subst hq
          have : ¬ (some "" : Option String) = some p := by simp [hp.symm]
          simp [this]
        · simp only [if_neg hq, lookupA_insertReplace]
          by_cases hqp : q = p
          · subst hqp
            simp
          · have : ¬ (some q : Option String) = some p := by simp [hqp]
            simp [hqp, this]

/-- A parent occurring in the batch has a last-occurring event. -/
lemma lastPropsFor_isSome (p : String) :
    ∀ events : List Event, some p ∈ events.map (·.parent_item_id) →
      (lastPropsFor p events).isSome
  | [], h => by simp at h
  | e :: es, h => by
    simp only [lastPropsFor]
    cases hl : lastPropsFor p es with
    | some q => simp
    | none =>
      simp only [List.map_cons, List.mem_cons] at h
      rcases h with h | h
      · simp [h.symm]
      · have := lastPropsFor_isSome p es h
        rw [hl] at this
        simp at this

/-- C2 (amended): the `Database` variant backfills by parent: after
`insert_events_batch`, every stored row whose `parent_item_id` is a
non-empty parent occurring in the batch carries the `event_properties` of
the most recently extracted (last-occurring) event for that parent.
(The richer `WorkplaceDBClient` variant does not — see the
counterexample.) -/
theorem parent_backfill_last_writer (store : List DBRow) (events : List Event)
    (p : String) (hp : p ≠ "")
    (hocc : some p ∈ events.map (·.parent_item_id)) :
    ∀ r ∈ (insertEventsBatchDB store events).1, r.parent_item_id = some p →
      r.event_properties = lastPropsFor p events := by
  intro r hr hpar
  have hne : events ≠ [] := by
    intro h
    subst h
    simp at hocc
  have hlook : lookupA (parentUpdates events) p =
      match lastPropsFor p events with
      | some q => some q
      | none => lookupA ([] : List (String × Props)) p :=
    parentUpdates_foldl p hp events []
  obtain ⟨q, hq⟩ := Option.isSome_iff_exists.mp (lastPropsFor_isSome p events hocc)
  rw [hq] at hlook
  simp only [insertEventsBatchDB, hne, if_false, applyParentBackfill] at hr
  simp only [List.mem_map] at hr
  obtain ⟨r0, _, hr0⟩ := hr
  have hpar0 : r0.parent_item_id = some p := by
    rw [← backfillRow_parent_item_id (parentUpdates events) r0, hr0]
    exact hpar
  have : backfillRow (parentUpdates events) r0 = { r0 with event_properties := some q } := by
    unfold backfillRow
    rw [hpar0]
    simp only [hlook]
  rw [← hr0, this, hq]

/-- Concrete instance for C2 (amended): with two batches sharing parent
`b-1` loaded sequentially through the `Database` variant, the first row now
carries the properties supplied by the later batch. -/
theorem parent_backfill_last_writer_witness :
    cBackfilledRow.event_properties = lastPropsFor "b-1" [cEventB2] :=
  parent_backfill_last_writer cStoreAfterB1 [cEventB2] "b-1" (by decide) (by decide)
    cBackfilledRow (by decide) (by decide)

/-- Counterexample for C2 as stated: the richer `WorkplaceDBClient` variant
refreshes properties by `event_id`, not by `parent_item_id`. After two
batches each containing an event for parent `b-1` are loaded sequentially,
the first row still carries the first batch's properties, not the later
batch's value as the claim requires of every `insert_events_batch`. -/
theorem wpe_backfill_counterexample :
    ((wpeInsertEventsBatch (wpeInsertEventsBatch [] [cEventB1]).1 [cEventB2]).1.map
        (·.event_properties)) = [some [("title", "v1")], some [("title", "v2")]] ∧
    some [("title", "v1")] ≠ some [("title", "v2")] := by
  exact ⟨by decide, by decide⟩

/-- The streaming transform loop is the per-record builder filtered over
the chunk: it never raises, and drops exactly the failing records. -/
lemma transformDataBatch_eq_filterMap (skid etype : String) :
    ∀ records : List RawRecord,
      transformDataBatch skid etype records =
        records.filterMap (buildStreamingEvent skid etype)
  | [] => rfl
  | r :: rs => by
    simp only [transformDataBatch, List.filterMap_cons]
    cases buildStreamingEvent skid etype r <;>
      simp [transformDataBatch_eq_filterMap skid etype rs]

/-- C3 (amended): a per-record transform failure is isolated — the record
is dropped and the rest of the chunk is processed — in the streaming
`transform_data_batch` unconditionally, and in the launchpad
`transform_data` provided every record of the chunk carries a non-blank
`employee_id`; a record with a missing or empty `employee_id` makes
`transform_data` raise before its `try` block and aborts the whole chunk
(see the counterexample). -/
theorem transform_failure_isolation (hrcMap : List (String × String))
    (hashFn : String → String) (records : List RawRecord)
    (hemp : ∀ r ∈ records, isBlank r.employee_id = false) :
    transformData hrcMap hashFn records =
      .ok (records.filterMap (processRecord hrcMap hashFn)) ∧
    ∀ skid etype : String,
      transformDataBatch skid etype records =
        records.filterMap (buildStreamingEvent skid etype) := by
  refine ⟨?_, fun skid etype => transformDataBatch_eq_filterMap skid etype records⟩
  induction records with
  | nil => rfl
  | cons r rs ih =>
    have h1 : isBlank r.employee_id = false := hemp r (by simp)
    have ih2 := ih fun x hx => hemp x (by simp [hx])
    simp only [transformData, h1, Bool.false_eq_true, if_false,
      List.filterMap_cons]
    cases processRecord hrcMap hashFn r <;> simp [ih2, Except.map]

/-- Concrete instance for C3 (amended): a 100-record chunk whose single
malformed record fails Event construction still transforms the other 99
records — the failure is logged and the record dropped, and the processed
count is 99. -/
theorem transform_failure_isolation_witness :
    transformData cQMap cHash cChunk100 =
      .ok (cChunk100.filterMap (processRecord cQMap cHash)) ∧
    (cChunk100.filterMap (processRecord cQMap cHash)).length = 99 :=
  ⟨(transform_failure_isolation cQMap cHash cChunk100 (by decide)).1, by rfl⟩

/-- Counterexample for C3 as stated: in the launchpad `transform_data` a
chunk containing one record without an `employee_id` does not yield the
other records — the guard raises outside the `try` block and the whole
chunk aborts with an error, while the streaming loop on the same chunk
isolates the failure and returns the one good event. -/
theorem transform_abort_counterexample :
    transformData cQMap cHash [cGoodRec, cBadRec] =
      .error "Employee ID is required for transformation" ∧
    (transformDataBatch "launchpad" "bug_created" [cGoodRec, cBadRec]).length = 1 := by
  exact ⟨rfl, rfl⟩

/-- C7: for an Event constructed with a valid `event_time_utc` and no
explicit `week`, the derived `week` is the ISO rendering of the day
`daysFromCivil d - pyWeekday d`, and that day is the Monday on or before
the timestamp's calendar date: it is congruent mod 7 to the known Monday
2024-01-01, it is at most the date's day number, and it is within 6 days of
it. -/
theorem week_derivation (f : EventFields) (ev : Event) (d : CivilDate)
    (hw : isBlank f.week = true)
    (hp : parseIsoDate f.event_time_utc = some d)
    (hok : mkEvent f = .ok ev) :
    ev.week = formatYMD (civilFromDays (daysFromCivil d - pyWeekday d)) ∧
    (daysFromCivil d - pyWeekday d - mondayAnchorDays) % 7 = 0 ∧
    daysFromCivil d - pyWeekday d ≤ daysFromCivil d ∧
    daysFromCivil d < daysFromCivil d - pyWeekday d + 7 := by
  have hweek : ev.week = get_week_start_date d := by
    unfold mkEvent at hok
    split_ifs at hok
    all_goals simp only [hp] at hok
    all_goals repeat split at hok
    all_goals
      first
        | exact Except.noConfusion hok
        | (injection hok with h1
           rw [← h1])
  refine ⟨hweek, ?_, ?_, ?_⟩
  all_goals
    have ha : mondayAnchorDays = 19723 := by decide
    have hwd : pyWeekday d = (daysFromCivil d + 3) % 7 := rfl
    rw [ha] at *
    omega

/-- Concrete instance for C7: an Event built with
`event_time_utc = "2024-03-06T10:00:00Z"` (a Wednesday) and no explicit
week derives `week = "2024-03-04"`, the preceding Monday. -/
theorem week_derivation_witness :
    (cWeekEvent.week =
      formatYMD (civilFromDays
        (daysFromCivil { year := 2024, month := 3, day := 6 } -
          pyWeekday { year := 2024, month := 3, day := 6 }))) ∧
    cWeekEvent.week = "2024-03-04" :=
  ⟨(week_derivation cWeekFields cWeekEvent { year := 2024, month := 3, day := 6 }
      rfl rfl (by decide)).1, rfl⟩

/-- C8 (amended): Events are not immutable after construction. Restricted
to the launchpad transform modelled here, the in-place mutation is confined
to `relation_properties`: every event the transform emits agrees with the
event as constructed (`__post_init__` complete) on every other field, and
its `relation_properties` is either unchanged or — on the
`question_created` branch — extended in place with the resolved
`assignee`. (Other source transforms mutate constructed events too: the
jira transform rewrites nested `event_properties` entries in place; it is
outside this model, whose map values are flat strings.) Stored rows are
only ever changed by the database backfill. -/
theorem events_mutated_only_by_assignee_backfill
    (hrcMap : List (String × String)) (hashFn : String → String)
    (records : List RawRecord) (evs : List Event)
    (hok : transformData hrcMap hashFn records = .ok evs) :
    ∀ ev ∈ evs, ∃ r ∈ records, ∃ e : Event,
      constructedEvent hrcMap hashFn r = some e ∧
      ev = { e with relation_properties := ev.relation_properties } ∧
      (ev.relation_properties = e.relation_properties ∨
        (e.event_type = "question_created" ∧
          ev.relation_properties =
            insertReplace e.relation_properties "assignee"
              (resolveAssignee hrcMap hashFn e.event_properties))) := by
  induction records generalizing evs with
  | nil =>
    cases hok
    simp
  | cons r rs ih =>
    simp only [transformData] at hok
    split at hok
    · exact absurd hok (by simp)
    · split at hok
      · rename_i e0 hpr
        cases hev : transformData hrcMap hashFn rs with
        | error msg => rw [hev] at hok; exact absurd hok (by simp [Except.map])
        | ok l =>
          rw [hev] at hok
          simp only [Except.map] at hok
          injection hok with hok2
          subst hok2
          intro ev hev2
          rcases List.mem_cons.mp hev2 with rfl | hmem
          · simp only [processRecord, Option.map_eq_some'] at hpr
            obtain ⟨e, hce, hbuild⟩ := hpr
            refine ⟨r, by simp, e, hce, ?_, ?_⟩
            · rw [← hbuild]
              split <;> rfl
            · rw [← hbuild]
              split
              · rename_i hq
                right
                exact ⟨hq, rfl⟩
              · left
                rfl
          · obtain ⟨r2, hr2, e2, h1, h2, h3⟩ := ih l hev ev hmem
            exact ⟨r2, by simp [hr2], e2, h1, h2, h3⟩
      · intro ev hev2
        obtain ⟨r2, hr2, e2, h1, h2, h3⟩ := ih evs hok ev hev2
        exact ⟨r2, by simp [hr2], e2, h1, h2, h3⟩

/-- Concrete instance for C8 (amended): the transformed `question_created`
event differs from its constructed state only in `relation_properties`. -/
theorem events_mutated_only_by_assignee_backfill_witness :
    ∃ r ∈ [cQRec], ∃ e : Event,
      constructedEvent cQMap cHash r = some e ∧
      cQOutEvent = { e with relation_properties := cQOutEvent.relation_properties } ∧
      (cQOutEvent.relation_properties = e.relation_properties ∨
        (e.event_type = "question_created" ∧
          cQOutEvent.relation_properties =
            insertReplace e.relation_properties "assignee"
              (resolveAssignee cQMap cHash e.event_properties))) :=
  events_mutated_only_by_assignee_backfill cQMap cHash [cQRec] [cQOutEvent]
    (by decide) cQOutEvent (by simp)

/-- Counterexample for C8 as stated: the system does mutate Event fields in
memory after `__post_init__` completes. For a `question_created` record the
launchpad transform sets `relation_properties["assignee"]` on the already
constructed event, and `EventV1.add_relation_property` mutates
`relation_properties` of a constructed event directly. (The jira transform
of the same pipeline likewise rewrites `event_properties` of constructed
events in place — further refuting evidence, outside this model.) -/
theorem event_mutation_counterexample :
    (transformData cQMap cHash [cQRec]).map (List.map (·.relation_properties)) =
      .ok [[("assignee", "EMP1")]] ∧
    (constructedEvent cQMap cHash cQRec).map (·.relation_properties) = some [] ∧
    (addRelationProperty cV1Event "reviewer" "E9").relation_properties ≠
      cV1Event.relation_properties := by
  exact ⟨by decide, by decide, by decide⟩

/-- Updating one list position exchanges its contribution to a count. -/
lemma countP_set_exchange (p : ChunkPhase → Bool) :
    ∀ (l : List ChunkPhase) (i : Nat) (a b : ChunkPhase),
      l.get? i = some a →
      (l.set i b).countP p + (if p a then 1 else 0) =
        l.countP p + (if p b then 1 else 0)
  | [], i, a, b, h => by simp at h
  | x :: t, 0, a, b, h => by
    injection h with h
    subst h
    simp only [List.set, List.countP_cons]
    omega
  | x :: t, i + 1, a, b, h => by
    simp only [List.get?] at h
    have ih := countP_set_exchange p t i a b h
    simp only [List.set, List.countP_cons]
    omega

/-- Invariant of the semaphore discipline: the counter plus the number of
in-flight chunks always equals `MAX_CONCURRENT_CHUNKS`. -/
lemma sched_invariant {maxConc n : Nat} {s : SchedState}
    (h : SchedReachable maxConc n s) :
    s.semValue + inFlightCount s = maxConc := by
  induction h with
  | init =>
    simp only [initSched, inFlightCount]
    have : (List.replicate n ChunkPhase.pending).countP
        (fun c => c = ChunkPhase.inFlight) = 0 := by
      induction n with
      | zero => rfl
      | succ m ihm => simp [List.replicate, List.countP_cons, ihm]
    simp [this]
  | step hr hstep ih =>
    rename_i s t
    cases hstep with
    | acquire i hsem hch =>
      have hx := countP_set_exchange (fun c => c = ChunkPhase.inFlight)
        s.chunks i ChunkPhase.pending ChunkPhase.inFlight hch
      simp only [inFlightCount] at ih ⊢
      simp only [show (ChunkPhase.pending = ChunkPhase.inFlight) = False by simp,
        show (ChunkPhase.inFlight = ChunkPhase.inFlight) = True by simp] at hx
      simp at hx
      omega
    | release i hch =>
      have hx := countP_set_exchange (fun c => c = ChunkPhase.inFlight)
        s.chunks i ChunkPhase.inFlight ChunkPhase.done hch
      simp only [inFlightCount] at ih ⊢
      simp only [show (ChunkPhase.inFlight = ChunkPhase.inFlight) = True by simp,
        show (ChunkPhase.done = ChunkPhase.inFlight) = False by simp] at hx
      simp at hx
      omega

/-- C9: in every state the orchestrator can reach, at most
`maxConcurrentChunks` chunk processing units (transform+load, the work
inside the semaphore's `async with`) are in flight simultaneously,
regardless of the total number of chunks. -/
theorem bounded_concurrency (maxConc n : Nat) (s : SchedState)
    (h : SchedReachable maxConc n s) : inFlightCount s ≤ maxConc := by
  have := sched_invariant h
  omega

/-- Concrete instance for C9: with `maxConcurrentChunks = 2` and three
chunks, the state with two chunks in flight is reachable and respects the
bound. -/
theorem bounded_concurrency_witness :
    inFlightCount
      ⟨0, [ChunkPhase.inFlight, ChunkPhase.inFlight, ChunkPhase.pending]⟩ ≤ 2 :=
  bounded_concurrency 2 3 _
    (SchedReachable.step
      (SchedReachable.step SchedReachable.init
        (SchedStep.acquire (initSched 2 3) 0 (by decide) (by decide)))
      (SchedStep.acquire
        ⟨1, [ChunkPhase.inFlight, ChunkPhase.pending, ChunkPhase.pending]⟩ 1
        (by decide) (by decide)))

end TemporalETL
